import Mathlib

set_option maxRecDepth 8000

/-!
Shallow embedding of `src/main.rs` (crate `triangle_automata`).

The source defines a generic double-buffered 2D grid with a triangular
neighborhood (`Grid<T>`), an automaton driver (`Automata<T>`), a cell type
`Light`, and a decay rule closure in `main`.  Machine integers (`usize`,
`u8`) are modelled as `Nat`: every arithmetic operation the program performs
on them is bounds-monotone (index arithmetic `i + j*width` on in-range data,
and `max(level,1)-1` whose minuend is at least 1), so no wrap-around can
occur and `Nat` agrees with the machine semantics at every reachable value.
Fallible operations (`Vec::get`, array indexing that can panic, `unwrap`)
are modelled with `Option`, `none` standing for absent or panic as noted at
each definition.
-/

/-- Rust `struct Grid<T> { data: Vec<T>, dims: (usize, usize) }`.
`dims.fst` is the width (`dims.0`), `dims.snd` the height (`dims.1`). -/
structure Grid (T : Type) where
  data : List T
  dims : Nat × Nat
deriving DecidableEq

/-- Rust `enum Light { Source(u8), Space(u8) }`; intensities as `Nat`
(values stay far below 256 and the rule arithmetic cannot wrap, see
`maxLevel` and `decayRule`). -/
inductive Light where
  | Source : Nat → Light
  | Space : Nat → Light
deriving DecidableEq

variable {T : Type}

/-- Rust `Grid::new(dims, default)`: `vec![default; dims.0*dims.1]`. -/
def Grid.new (dims : Nat × Nat) (default : T) : Grid T :=
  { data := List.replicate (dims.fst * dims.snd) default, dims := dims }

/-- Rust `Grid::get((i,j))`: `self.data.get(i + j*self.dims.0)`.
`Vec::get` is a checked access on the linear index only. -/
def Grid.get (g : Grid T) (ij : Nat × Nat) : Option T :=
  g.data[ij.fst + ij.snd * g.dims.fst]?

/-- Rust `Grid::get_mut((i,j))`: `self.data.get_mut(i + j*self.dims.0)`.
A mutable reference is modelled by the value it points to; the result is
`some` exactly when the Rust call returns `Some`. -/
def Grid.get_mut (g : Grid T) (ij : Nat × Nat) : Option T :=
  g.data[ij.fst + ij.snd * g.dims.fst]?

/-- Writing `v` through `get_mut ij`: `none` when `get_mut` returns `None`
(so a caller that `unwrap`s would panic), otherwise the updated grid. -/
def Grid.setCell (g : Grid T) (ij : Nat × Nat) (v : T) : Option (Grid T) :=
  if ij.fst + ij.snd * g.dims.fst < g.data.length then
    some { g with data := g.data.set (ij.fst + ij.snd * g.dims.fst) v }
  else
    none

/-- Rust `Grid::neighborhood((i,j))`.  `(i+j) & 1 == 0` is parity of `i+j`;
the Rust `usize` guards `i > 0`, `i+1 < dims.0`, `j+1 < dims.1`, `j > 0`
translate literally.  The chain
`iter().filter(is_some).map(|co| get(co.unwrap())).filter(is_some).map(unwrap)`
is `filterMap id` followed by `filterMap get`.  Values are returned instead
of references (the caller clones them immediately). -/
def Grid.neighborhood (g : Grid T) (ij : Nat × Nat) : List T :=
  let i := ij.fst
  let j := ij.snd
  let coords : List (Option (Nat × Nat)) :=
    if (i + j) % 2 = 0 then
      [some (i, j),
       if 0 < i then some (i - 1, j) else none,
       if i + 1 < g.dims.fst then some (i + 1, j) else none,
       if j + 1 < g.dims.snd then some (i, j + 1) else none]
    else
      [some (i, j),
       if 0 < i then some (i - 1, j) else none,
       if i + 1 < g.dims.fst then some (i + 1, j) else none,
       if 0 < j then some (i, j - 1) else none]
  (coords.filterMap id).filterMap (fun c => g.get c)

/-- Rust `struct Automata<T> { grids: [Grid<T>; 2], flag: usize }`.
The two-element array is a list so that `grids[flag]` with an out-of-range
flag can be modelled as a panic (`none` from `getElem?`). -/
structure Automata (T : Type) where
  grids : List (Grid T)
  flag : Nat
deriving DecidableEq

/-- Rust `Automata::new(grid)`: `grids: [grid.clone(), grid.clone()], flag: 0`. -/
def Automata.new (grid : Grid T) : Automata T :=
  { grids := [grid, grid], flag := 0 }

/-- Rust `Automata::get((i,j))`: `self.grids[self.flag].get((i,j))`.
The outer `Option` is the array indexing (`none` = panic on a bad flag),
the inner one is `Grid::get`'s result. -/
def Automata.get (a : Automata T) (ij : Nat × Nat) : Option (Option T) :=
  (a.grids[a.flag]?).map (fun g => g.get ij)

/-- Rust `Automata::get_mut((i,j))`, modelled like `Automata.get`. -/
def Automata.get_mut (a : Automata T) (ij : Nat × Nat) : Option (Option T) :=
  (a.grids[a.flag]?).map (fun g => g.get_mut ij)

/-- Writing through the automaton as `main` does:
`automata.get_mut((i,j)).map(|cell| *cell = v)`.  The outer `Option` is the
`grids[flag]` indexing; when `get_mut` itself returns `None` the `map`
does nothing and the automaton is unchanged. -/
def Automata.setActive (a : Automata T) (ij : Nat × Nat) (v : T) : Option (Automata T) :=
  (a.grids[a.flag]?).map (fun g =>
    match g.setCell ij v with
    | some g2 => { a with grids := a.grids.set a.flag g2 }
    | none => a)

/-- The cell sequence visited by `evolve`'s nested loops:
`for i in 0..w { for j in 0..h { ... } }`, i outer (width), j inner (height). -/
def evolveCoords (w h : Nat) : List (Nat × Nat) :=
  (List.range w).flatMap (fun i => (List.range h).map (fun j => (i, j)))

/-- The body of `evolve`'s loops, threading the inactive buffer: each step
writes `f c` (in `evolve`, the rule applied to the active buffer's
neighborhood of `c`) into cell `c` of the accumulating grid through
`get_mut(c).unwrap()`; `none` models the `unwrap` panic. -/
def writeCells (f : Nat × Nat → T) : List (Nat × Nat) → Grid T → Option (Grid T)
  | [], g => some g
  | c :: cs, g =>
    match g.setCell c (f c) with
    | some g2 => writeCells f cs g2
    | none => none

/-- Rust `Automata::evolve(rule)`.  The loop bounds are the active buffer's
`dims`; each iteration reads `grids[flag]` (never written during the loop,
so it is fetched once here) and writes `grids[(flag+1)%2]` (the threaded
inactive buffer); afterwards `flag = (flag+1) % 2`.  `none` models a panic
(array indexing with a bad `flag`, or the `unwrap` in the loop). -/
def Automata.evolve (rule : List T → T) (a : Automata T) : Option (Automata T) :=
  match a.grids[a.flag]?, a.grids[(a.flag + 1) % 2]? with
  | some active, some inactive =>
    match writeCells (fun c => rule (active.neighborhood c))
        (evolveCoords active.dims.fst active.dims.snd) inactive with
    | some final =>
      some { grids := a.grids.set ((a.flag + 1) % 2) final, flag := (a.flag + 1) % 2 }
    | none => none
  | _, _ => none

/-- Iterated `evolve` (the driver in `main` calls it in a loop). -/
def Automata.evolveN (rule : List T → T) : Nat → Automata T → Option (Automata T)
  | 0, a => some a
  | n + 1, a => (a.evolve rule).bind (Automata.evolveN rule n)

/-- Intensity of a `Light` cell, as matched inside the rule closure. -/
def Light.level : Light → Nat
  | .Source l => l
  | .Space l => l

/-- The `for ncel in ngh { if level > max { max = level } }` loop of the
rule closure in `main`, starting from `0u8`. -/
def maxLevel (ngh : List Light) : Nat :=
  ngh.foldl (fun m c => if c.level > m then c.level else m) 0

/-- The rule closure in `main`.  It indexes `ngh[0]`; `evolve` only ever
passes a self-first nonempty neighborhood, and the empty case (a Rust
panic) is given a junk value.  `max.max(1) - 1` has minuend at least 1, so
the `u8` subtraction never underflows and agrees with `Nat` subtraction. -/
def decayRule (ngh : List Light) : Light :=
  match ngh with
  | [] => Light.Space 0
  | c :: _ =>
    match c with
    | Light.Space _ => Light.Space ((maxLevel ngh).max 1 - 1)
    | Light.Source lvl => Light.Source lvl

/-- Invariant `data.length == dims.width * dims.height` (spec section 3);
every `Grid` the program builds satisfies it. -/
abbrev Grid.wf (g : Grid T) : Prop :=
  g.data.length = g.dims.fst * g.dims.snd

/-- The `Automata` state invariant: two buffers, a binary flag, both
buffers well-formed and of identical dimensions (spec section 3). -/
abbrev Automata.inv (a : Automata T) : Prop :=
  a.grids.length = 2 ∧ a.flag < 2 ∧
  (∀ g ∈ a.grids, g.wf) ∧
  (∀ g ∈ a.grids, ∀ g2 ∈ a.grids, g.dims = g2.dims)

/-- The neighbor candidates after self, as the spec words them: left, right,
then below for even parity of `i+j` or above for odd parity, each kept only
when its bounds guard holds. -/
def candTail (w h i j : Nat) : List (Nat × Nat) :=
  (if 0 < i then [(i - 1, j)] else [])
    ++ (if i + 1 < w then [(i + 1, j)] else [])
    ++ (if (i + j) % 2 = 0 then (if j + 1 < h then [(i, j + 1)] else [])
        else (if 0 < j then [(i, j - 1)] else []))

/-- Spec-side candidate sequence (section 4.1): self first, then the kept
neighbor candidates in the fixed left / right / below-or-above order. -/
def candList (w h i j : Nat) : List (Nat × Nat) :=
  (i, j) :: candTail w h i j

/-- The seed grid of `main`: 30×20, all `Space 0`. -/
def demoSeed : Grid Light := Grid.new (30, 20) (Light.Space 0)

/-- The automaton `main` constructs. -/
def demoA0 : Automata Light := Automata.new demoSeed

/-- The driver's seeding write `automata.get_mut((10,10)).map(|l| *l = Source(10))`. -/
def demoA1 : Option (Automata Light) := demoA0.setActive (10, 10) (Light.Source 10)

/-- Buffer 0 after the seeding write: `Source 10` at linear index
`10 + 10*30 = 310`, `Space 0` everywhere else. -/
def demoSeedSrc : Grid Light :=
  Grid.mk (demoSeed.data.set 310 (Light.Source 10)) (30, 20)

/-- The automaton state after the seeding write, spelled out. -/
def demoA1v : Automata Light := Automata.mk [demoSeedSrc, demoSeed] 0

/-- The driver state after the first `evolve(rule)` call. -/
def demoA2 : Option (Automata Light) := demoA1.bind (Automata.evolve decayRule)

/-- Expected cell values after one generation: the source cell keeps
`Source 10`, its three topological neighbors become `Space 9`, everything
else stays `Space 0`. -/
def expectedCell (ij : Nat × Nat) : Light :=
  if ij = (10, 10) then Light.Source 10
  else if ij = (9, 10) ∨ ij = (11, 10) ∨ ij = (10, 11) then Light.Space 9
  else Light.Space 0

/-- A tiny concrete automaton and rule used to exercise the general
theorems on concrete inputs. -/
def smallA : Automata Nat := Automata.new (Grid.new (2, 2) (0 : Nat))

/-- A simple concrete rule: the neighborhood size. -/
def smallRule : List Nat -> Nat := fun l => l.length

/-- `smallA` after two generations. -/
def smallA2 : Automata Nat := (Automata.evolveN smallRule 2 smallA).getD smallA

/-- `smallA` after three generations. -/
def smallA3 : Automata Nat := (Automata.evolveN smallRule 3 smallA).getD smallA

/-- In-bounds coordinates give an in-range linear index. -/
theorem idx_lt_of_lt {i j w h : Nat} (hi : i < w) (hj : j < h) :
    i + j * w < w * h := by
  have h1 : i + j * w < (j + 1) * w := by
    rw [Nat.succ_mul]; omega
  calc i + j * w < (j + 1) * w := h1
    _ ≤ h * w := Nat.mul_le_mul_right w hj
    _ = w * h := Nat.mul_comm h w

/-- The linear index map `(i, j) ↦ i + j * w` is injective on in-bounds
coordinates. -/
theorem idx_inj {i j i2 j2 w : Nat} (hi : i < w) (hi2 : i2 < w)
    (h : i + j * w = i2 + j2 * w) : i = i2 ∧ j = j2 := by
  have hw : 0 < w := Nat.lt_of_le_of_lt (Nat.zero_le i) hi
  have e1 : (i + j * w) % w = i := by
    rw [Nat.add_mul_mod_self_right, Nat.mod_eq_of_lt hi]
  have e2 : (i2 + j2 * w) % w = i2 := by
    rw [Nat.add_mul_mod_self_right, Nat.mod_eq_of_lt hi2]
  have e3 : (i + j * w) / w = j := by
    rw [Nat.add_mul_div_right _ _ hw, Nat.div_eq_of_lt hi, Nat.zero_add]
  have e4 : (i2 + j2 * w) / w = j2 := by
    rw [Nat.add_mul_div_right _ _ hw, Nat.div_eq_of_lt hi2, Nat.zero_add]
  constructor
  · rw [← e1, ← e2, h]
  · rw [← e3, ← e4, h]

/-- A freshly built grid reads `default` exactly on in-range linear indices. -/
theorem Grid.get_new (w h : Nat) (d : T) (i j : Nat) :
    (Grid.new (w, h) d).get (i, j) =
      if i + j * w < w * h then some d else none := by
  simp [Grid.new, Grid.get, List.getElem?_replicate]

/-- `setCell` succeeds on an in-range linear index. -/
theorem Grid.setCell_of_lt {g : Grid T} {ij : Nat × Nat} {v : T}
    (h : ij.fst + ij.snd * g.dims.fst < g.data.length) :
    g.setCell ij v =
      some { g with data := g.data.set (ij.fst + ij.snd * g.dims.fst) v } := by
  simp [Grid.setCell, h]

/-- Point reads after a single in-bounds cell write: the written cell (and
only it, among in-bounds cells) changes. -/
theorem Grid.get_set_in_bounds {w h : Nat} {g : Grid T} (hd : g.dims = (w, h))
    (hl : g.data.length = w * h) {c1 c2 : Nat} (hc1 : c1 < w) (hc2 : c2 < h)
    (v : T) {i j : Nat} (hi : i < w) (hj : j < h) :
    (Grid.mk (g.data.set (c1 + c2 * g.dims.fst) v) g.dims).get (i, j) =
      if (i, j) = (c1, c2) then some v else g.get (i, j) := by
  have hw : g.dims.fst = w := by rw [hd]
  have hlhs : (Grid.mk (g.data.set (c1 + c2 * g.dims.fst) v) g.dims).get (i, j)
      = (g.data.set (c1 + c2 * w) v)[i + j * w]? := by
    simp [Grid.get, hw]
  rw [hlhs]
  by_cases he : (i, j) = (c1, c2)
  · obtain ⟨rfl, rfl⟩ := Prod.mk.inj he
    rw [if_pos rfl]
    exact List.getElem?_set_self (by rw [hl]; exact idx_lt_of_lt hi hj)
  · rw [if_neg he]
    have hne : c1 + c2 * w ≠ i + j * w := by
      intro hcontra
      exact he (by
        obtain ⟨h1, h2⟩ := idx_inj hc1 hi hcontra
        rw [h1, h2])
    rw [List.getElem?_set_ne hne]
    simp [Grid.get, hw]

/-- Main loop lemma: writing `f` over any list of in-bounds cells succeeds
(no `unwrap` panic), keeps dimensions and data length, and ends with every
visited in-bounds cell holding its `f`-value and every other in-bounds cell
unchanged. -/
theorem writeCells_spec {w h : Nat} (f : Nat × Nat → T) (cs : List (Nat × Nat)) :
    ∀ (g : Grid T), g.dims = (w, h) → g.data.length = w * h →
      (∀ c ∈ cs, c.fst < w ∧ c.snd < h) →
      ∃ g2, writeCells f cs g = some g2 ∧ g2.dims = (w, h) ∧
        g2.data.length = w * h ∧
        ∀ i j, i < w → j < h →
          g2.get (i, j) = if (i, j) ∈ cs then some (f (i, j)) else g.get (i, j) := by
  induction cs with
  | nil =>
    intro g hd hl _
    exact ⟨g, rfl, hd, hl, by intro i j hi hj; simp⟩
  | cons c cs ih =>
    intro g hd hl hcs
    obtain ⟨c1, c2⟩ := c
    obtain ⟨⟨hc1, hc2⟩, hcs'⟩ := List.forall_mem_cons.mp hcs
    have hw : g.dims.fst = w := by rw [hd]
    have hidx : c1 + c2 * g.dims.fst < g.data.length := by
      rw [hw, hl]; exact idx_lt_of_lt hc1 hc2
    have hset : g.setCell (c1, c2) (f (c1, c2)) =
        some (Grid.mk (g.data.set (c1 + c2 * g.dims.fst) (f (c1, c2))) g.dims) :=
      Grid.setCell_of_lt hidx
    obtain ⟨g2, hrun, hg2d, hg2l, hget⟩ :=
      ih (Grid.mk (g.data.set (c1 + c2 * g.dims.fst) (f (c1, c2))) g.dims)
        hd (by simpa using hl) hcs'
    refine ⟨g2, ?_, hg2d, hg2l, ?_⟩
    · simp only [writeCells]
      rw [hset]
      exact hrun
    · intro i j hi hj
      have hg1get :
          (Grid.mk (g.data.set (c1 + c2 * g.dims.fst) (f (c1, c2))) g.dims).get (i, j) =
            if (i, j) = (c1, c2) then some (f (c1, c2)) else g.get (i, j) :=
        Grid.get_set_in_bounds hd hl hc1 hc2 (f (c1, c2)) hi hj
      rw [hget i j hi hj]
      by_cases hmem : (i, j) ∈ cs
      · rw [if_pos hmem, if_pos (List.mem_cons_of_mem _ hmem)]
      · rw [if_neg hmem, hg1get]
        by_cases he : (i, j) = (c1, c2)
        · rw [if_pos he, if_pos (by rw [he]; exact List.mem_cons_self _ _), he]
        · rw [if_neg he, if_neg (by simp [List.mem_cons, he, hmem])]

/-- Membership in the `evolve` iteration sequence is exactly in-bounds-ness. -/
theorem mem_evolveCoords {w h : Nat} {c : Nat × Nat} :
    c ∈ evolveCoords w h ↔ c.fst < w ∧ c.snd < h := by
  obtain ⟨i, j⟩ := c
  simp only [evolveCoords, List.mem_flatMap, List.mem_map, List.mem_range]
  constructor
  · rintro ⟨a, ha, b, hb, hab⟩
    obtain ⟨rfl, rfl⟩ := Prod.mk.inj hab
    exact ⟨ha, hb⟩
  · rintro ⟨h1, h2⟩
    exact ⟨i, h1, j, h2, rfl⟩

/-- Master lemma for one `evolve` call on well-formed buffers: it returns
(no panic), swaps the flag, replaces only the inactive slot, and the new
buffer holds `rule` of the pre-call active buffer's neighborhood at every
in-bounds cell. -/
theorem Automata.evolve_spec (a : Automata T) (rule : List T → T)
    {A B : Grid T} {w h : Nat}
    (hA : a.grids[a.flag]? = some A) (hB : a.grids[(a.flag + 1) % 2]? = some B)
    (hAd : A.dims = (w, h)) (hBd : B.dims = (w, h)) (hBl : B.data.length = w * h) :
    ∃ C, a.evolve rule =
        some (Automata.mk (a.grids.set ((a.flag + 1) % 2) C) ((a.flag + 1) % 2)) ∧
      C.dims = (w, h) ∧ C.data.length = w * h ∧
      ∀ i j, i < w → j < h →
        C.get (i, j) = some (rule (A.neighborhood (i, j))) := by
  have hbounds : ∀ c ∈ evolveCoords A.dims.fst A.dims.snd, c.fst < w ∧ c.snd < h := by
    intro c hc
    have hm := mem_evolveCoords.mp hc
    rw [hAd] at hm
    exact hm
  obtain ⟨C, hrun, hCd, hCl, hget⟩ :=
    writeCells_spec (fun c => rule (A.neighborhood c))
      (evolveCoords A.dims.fst A.dims.snd) B hBd hBl hbounds
  refine ⟨C, ?_, hCd, hCl, fun i j hi hj => ?_⟩
  · unfold Automata.evolve
    rw [hA, hB]
    simp only [hrun]
  · have := hget i j hi hj
    rw [if_pos (by rw [hAd] at this ⊢; exact mem_evolveCoords.mpr ⟨hi, hj⟩)] at this
    exact this

/-- Whenever `evolve` returns at all, the new flag is the old one flipped
modulo 2 (no well-formedness needed). -/
theorem Automata.evolve_flag {a a2 : Automata T} {rule : List T → T}
    (h : a.evolve rule = some a2) : a2.flag = (a.flag + 1) % 2 := by
  unfold Automata.evolve at h
  split at h
  · split at h
    · rw [← Option.some.inj h]
    · exact Option.noConfusion h
  · exact Option.noConfusion h

/-- Unpacking the automaton invariant into the hypotheses `evolve_spec`
needs. -/
theorem Automata.inv_elim (a : Automata T) (hinv : a.inv) :
    ∃ A B w h, a.grids[a.flag]? = some A ∧ a.grids[(a.flag + 1) % 2]? = some B ∧
      A.dims = (w, h) ∧ B.dims = (w, h) ∧
      A.data.length = w * h ∧ B.data.length = w * h := by
  obtain ⟨hlen, hflag, hwf, hdims⟩ := hinv
  have h1 : a.flag < a.grids.length := by rw [hlen]; exact hflag
  have h2 : (a.flag + 1) % 2 < a.grids.length := by
    rw [hlen]; exact Nat.mod_lt _ (by omega)
  refine ⟨a.grids[a.flag], a.grids[(a.flag + 1) % 2],
    (a.grids[a.flag]).dims.fst, (a.grids[a.flag]).dims.snd,
    List.getElem?_eq_getElem h1, List.getElem?_eq_getElem h2, ?_, ?_, ?_, ?_⟩
  · exact Prod.mk.eta.symm
  · rw [hdims _ (List.getElem_mem h2) _ (List.getElem_mem h1)]
  · exact hwf _ (List.getElem_mem h1)
  · rw [hwf _ (List.getElem_mem h2), hdims _ (List.getElem_mem h2) _ (List.getElem_mem h1)]

/-- Setting a list slot back to the value it already holds is a no-op. -/
theorem list_set_of_getElem? {α : Type _} {l : List α} {n : Nat} {a : α}
    (h : l[n]? = some a) : l.set n a = l := by
  apply List.ext_getElem?
  intro m
  by_cases hm : n = m
  · subst hm
    rw [List.getElem?_set_self (List.getElem?_eq_some_iff.mp h).1, h]
  · rw [List.getElem?_set_ne hm]

/-- One `evolve` call preserves the automaton invariant and the per-buffer
dimensions and data lengths. -/
theorem Automata.inv_evolve {a a2 : Automata T} {rule : List T → T}
    (hinv : a.inv) (h : a.evolve rule = some a2) :
    a2.inv ∧ a2.grids.map Grid.dims = a.grids.map Grid.dims ∧
      a2.grids.map (fun g => g.data.length) = a.grids.map (fun g => g.data.length) := by
  obtain ⟨A, B, w, h', hA, hB, hAd, hBd, hAl, hBl⟩ := Automata.inv_elim a hinv
  obtain ⟨hlen, hflag, hwf, hdims⟩ := hinv
  obtain ⟨C, hev, hCd, hCl, _⟩ := Automata.evolve_spec a rule hA hB hAd hBd hBl
  rw [h] at hev
  obtain rfl := Option.some.inj hev
  have hmapd : (a.grids.set ((a.flag + 1) % 2) C).map Grid.dims = a.grids.map Grid.dims := by
    rw [List.map_set]
    apply list_set_of_getElem?
    rw [List.getElem?_map, hB, Option.map_some', hBd, hCd]
  have hmapl : (a.grids.set ((a.flag + 1) % 2) C).map (fun g => g.data.length)
      = a.grids.map (fun g => g.data.length) := by
    rw [List.map_set]
    apply list_set_of_getElem?
    rw [List.getElem?_map, hB, Option.map_some', hBl, hCl]
  refine ⟨⟨?_, ?_, ?_, ?_⟩, hmapd, hmapl⟩
  · simpa using hlen
  · exact Nat.mod_lt _ (by omega)
  · intro g hg
    rcases List.mem_or_eq_of_mem_set hg with hg2 | hgC
    · exact hwf _ hg2
    · show g.data.length = g.dims.fst * g.dims.snd
      rw [hgC, hCl, hCd]
  · intro g hg g2 hg2
    have hone : ∀ g3, g3 ∈ (a.grids.set ((a.flag + 1) % 2) C) → g3.dims = A.dims := by
      intro g3 hg3
      rcases List.mem_or_eq_of_mem_set hg3 with hg4 | hgC
      · exact hdims _ hg4 _ (List.getElem?_mem hA)
      · rw [hgC, hCd, hAd]
    rw [hone _ hg, hone _ hg2]

/-- The implementation's neighborhood returns the `get`-values of exactly
the spec's candidate sequence, in order. -/
theorem neighborhood_eq_candList (g : Grid T) (i j : Nat) :
    g.neighborhood (i, j) =
      (candList g.dims.fst g.dims.snd i j).filterMap (fun c => g.get c) := by
  by_cases hp : (i + j) % 2 = 0 <;> by_cases h1 : 0 < i <;>
    by_cases h2 : i + 1 < g.dims.fst <;> by_cases h3 : j + 1 < g.dims.snd <;>
    by_cases h4 : 0 < j <;>
    simp [Grid.neighborhood, candList, candTail, hp, h1, h2, h3, h4]

/-- Case analysis for membership in the candidate sequence. -/
theorem mem_candList {w h i j : Nat} {c : Nat × Nat} (hc : c ∈ candList w h i j) :
    c = (i, j) ∨ (0 < i ∧ c = (i - 1, j)) ∨ (i + 1 < w ∧ c = (i + 1, j)) ∨
      ((i + j) % 2 = 0 ∧ j + 1 < h ∧ c = (i, j + 1)) ∨
      (¬ (i + j) % 2 = 0 ∧ 0 < j ∧ c = (i, j - 1)) := by
  unfold candList candTail at hc
  by_cases hp : (i + j) % 2 = 0 <;> by_cases h1 : 0 < i <;>
    by_cases h2 : i + 1 < w <;> by_cases h3 : j + 1 < h <;> by_cases h4 : 0 < j <;>
    simp [hp, h1, h2, h3, h4] at hc <;> tauto

/-- The max-accumulator loop of the rule never moves when no element
exceeds the accumulator. -/
theorem foldl_level_le (l : List Light) : ∀ m, (∀ v ∈ l, v.level ≤ m) →
    l.foldl (fun m c => if c.level > m then c.level else m) m = m := by
  induction l with
  | nil => intro m _; rfl
  | cons a l ih =>
    intro m hm
    have ha : a.level ≤ m := hm a (List.mem_cons_self a l)
    have hno : ¬ (a.level > m) := by omega
    simp only [List.foldl_cons, if_neg hno]
    exact ih m (fun v hv => hm v (List.mem_cons_of_mem _ hv))

/-- A neighborhood of all-`Space 0` cells has maximum level 0. -/
theorem maxLevel_zero {l : List Light} (h : ∀ v ∈ l, v = Light.Space 0) :
    maxLevel l = 0 := by
  unfold maxLevel
  exact foldl_level_le l 0 (fun v hv => by rw [h v hv]; exact Nat.le_refl 0)

/-- The decay rule maps an all-dark neighborhood of a `Space` cell to
`Space 0`: `max(level,1) - 1` floors at 0 instead of underflowing. -/
theorem decayRule_all_space0 {ngh : List Light}
    (hne : ngh.head? = some (Light.Space 0))
    (hall : ∀ v ∈ ngh, v = Light.Space 0) : decayRule ngh = Light.Space 0 := by
  cases ngh with
  | nil => exact Option.noConfusion hne
  | cons a tl =>
    have ha : a = Light.Space 0 := Option.some.inj hne
    subst ha
    show Light.Space ((maxLevel (Light.Space 0 :: tl)).max 1 - 1) = Light.Space 0
    rw [maxLevel_zero hall]
    decide

theorem demoA1_eq : demoA1 = some demoA1v := rfl

/-- Point reads on the seeded grid. -/
theorem demoSeedSrc_get (x y : Nat) (hx : x < 30) (hy : y < 20) :
    demoSeedSrc.get (x, y) =
      some (if x + y * 30 = 310 then Light.Source 10 else Light.Space 0) := by
  show (demoSeed.data.set 310 (Light.Source 10))[x + y * 30]? = _
  rw [List.getElem?_set]
  by_cases he : x + y * 30 = 310
  · rw [if_pos he.symm, if_pos (by simp [demoSeed, Grid.new]), if_pos he]
  · rw [if_neg (fun hc => he hc.symm), if_neg he]
    simp only [demoSeed, Grid.new, List.getElem?_replicate]
    rw [if_pos (by omega)]

/-- One generation, pointwise: the rule value of the seeded grid's
neighborhood is the expected cell value, for every in-bounds cell. -/
theorem demo_step (i j : Nat) (hi : i < 30) (hj : j < 20) :
    decayRule (demoSeedSrc.neighborhood (i, j)) = expectedCell (i, j) := by
  by_cases hA : (i, j) = (10, 10)
  · obtain ⟨rfl, rfl⟩ := Prod.mk.inj hA
    decide
  by_cases hB : (i, j) = (9, 10)
  · obtain ⟨rfl, rfl⟩ := Prod.mk.inj hB
    decide
  by_cases hC : (i, j) = (11, 10)
  · obtain ⟨rfl, rfl⟩ := Prod.mk.inj hC
    decide
  by_cases hD : (i, j) = (10, 11)
  · obtain ⟨rfl, rfl⟩ := Prod.mk.inj hD
    decide
  have hnot : ∀ c ∈ candList 30 20 i j, c ≠ (10, 10) := by
    rintro ⟨c1, c2⟩ hc hc10
    obtain ⟨f1, f2⟩ := Prod.mk.inj hc10
    rcases mem_candList hc with h | ⟨h0, h⟩ | ⟨h0, h⟩ | ⟨hp, h0, h⟩ | ⟨hp, h0, h⟩ <;>
      obtain ⟨e1, e2⟩ := Prod.mk.inj h
    · exact hA (by rw [Prod.mk.injEq]; omega)
    · exact hC (by rw [Prod.mk.injEq]; omega)
    · exact hB (by rw [Prod.mk.injEq]; omega)
    · omega
    · exact hD (by rw [Prod.mk.injEq]; omega)
  have hbounds : ∀ c ∈ candList 30 20 i j, c.fst < 30 ∧ c.snd < 20 := by
    rintro ⟨c1, c2⟩ hc
    show c1 < 30 ∧ c2 < 20
    rcases mem_candList hc with h | ⟨h0, h⟩ | ⟨h0, h⟩ | ⟨hp, h0, h⟩ | ⟨hp, h0, h⟩ <;>
      obtain ⟨e1, e2⟩ := Prod.mk.inj h <;> omega
  have hget : ∀ c ∈ candList 30 20 i j, demoSeedSrc.get c = some (Light.Space 0) := by
    rintro ⟨c1, c2⟩ hc
    have hb1 : c1 < 30 := (hbounds (c1, c2) hc).1
    have hb2 : c2 < 20 := (hbounds (c1, c2) hc).2
    rw [demoSeedSrc_get c1 c2 hb1 hb2]
    rw [if_neg ?_]
    intro hidx
    have h310 : c1 + c2 * 30 = 10 + 10 * 30 := by omega
    obtain ⟨e1, e2⟩ := idx_inj hb1 (by omega) h310
    exact hnot (c1, c2) hc (by rw [e1, e2])
  have hd1 : demoSeedSrc.dims.fst = 30 := rfl
  have hd2 : demoSeedSrc.dims.snd = 20 := rfl
  have hngh : demoSeedSrc.neighborhood (i, j) =
      (candList 30 20 i j).filterMap (fun c => demoSeedSrc.get c) := by
    rw [neighborhood_eq_candList, hd1, hd2]
  have hall : ∀ v ∈ demoSeedSrc.neighborhood (i, j), v = Light.Space 0 := by
    intro v hv
    rw [hngh] at hv
    obtain ⟨c, hc, hgc⟩ := List.mem_filterMap.mp hv
    rw [hget c hc] at hgc
    exact (Option.some.inj hgc).symm
  have hhead : (demoSeedSrc.neighborhood (i, j)).head? = some (Light.Space 0) := by
    rw [hngh]
    show (List.filterMap (fun c => demoSeedSrc.get c) ((i, j) :: candTail 30 20 i j)).head? = _
    rw [List.filterMap_cons, hget (i, j) (List.mem_cons_self _ _)]
    rfl
  rw [decayRule_all_space0 hhead hall]
  unfold expectedCell
  rw [if_neg hA, if_neg (by simp [hB, hC, hD])]


/-- Any number of `evolve` generations preserves the invariant and every
buffer's dims and data length. -/
theorem Automata.inv_evolveN {rule : List T → T} :
    ∀ (n : Nat) (a a2 : Automata T), a.inv → Automata.evolveN rule n a = some a2 →
      a2.inv ∧ a2.grids.map Grid.dims = a.grids.map Grid.dims ∧
        a2.grids.map (fun g => g.data.length) = a.grids.map (fun g => g.data.length)
  | 0, a, a2, hinv, h => by
    obtain rfl := Option.some.inj h
    exact ⟨hinv, rfl, rfl⟩
  | n + 1, a, a2, hinv, h => by
    cases hev : a.evolve rule with
    | none =>
      rw [show Automata.evolveN rule (n + 1) a
          = (a.evolve rule).bind (Automata.evolveN rule n) from rfl, hev] at h
      exact Option.noConfusion h
    | some b =>
      rw [show Automata.evolveN rule (n + 1) a
          = (a.evolve rule).bind (Automata.evolveN rule n) from rfl, hev] at h
      obtain ⟨hinvb, hd, hl⟩ := Automata.inv_evolve hinv hev
      obtain ⟨hinv2, hd2, hl2⟩ := Automata.inv_evolveN n b a2 hinvb h
      exact ⟨hinv2, by rw [hd2, hd], by rw [hl2, hl]⟩

/-- After `n` successful generations from a binary flag, the flag is the
start flag plus `n`, modulo 2. -/
theorem Automata.evolveN_flag {rule : List T → T} :
    ∀ (n : Nat) (a a2 : Automata T), a.flag < 2 →
      Automata.evolveN rule n a = some a2 → a2.flag = (a.flag + n) % 2
  | 0, a, a2, hf, h => by
    obtain rfl := Option.some.inj h
    omega
  | n + 1, a, a2, hf, h => by
    cases hev : a.evolve rule with
    | none =>
      rw [show Automata.evolveN rule (n + 1) a
          = (a.evolve rule).bind (Automata.evolveN rule n) from rfl, hev] at h
      exact Option.noConfusion h
    | some b =>
      rw [show Automata.evolveN rule (n + 1) a
          = (a.evolve rule).bind (Automata.evolveN rule n) from rfl, hev] at h
      have hb := Automata.evolve_flag hev
      have hrec := Automata.evolveN_flag n b a2 (by omega) h
      omega

/-- C1 counterexample: on a 3×2 grid, (3,0) has i ≥ width, yet `get` and
`get_mut` return a cell (the one stored at linear index 3, which is cell
(0,1)), and the automaton's delegating accessors do too — the claim that
they always return `None` for i ≥ width fails. -/
theorem claim_C1_cex :
    3 ≥ (Grid.new (3, 2) (0 : Nat)).dims.fst ∧
    (Grid.new (3, 2) (0 : Nat)).get (3, 0) = some 0 ∧
    (Grid.new (3, 2) (0 : Nat)).get_mut (3, 0) = some 0 ∧
    (Automata.new (Grid.new (3, 2) (0 : Nat))).get (3, 0) = some (some 0) ∧
    (Automata.new (Grid.new (3, 2) (0 : Nat))).get_mut (3, 0) = some (some 0) := by
  decide

/-- C1 amended: `get`/`get_mut` return absent exactly when the linear index
`i + j*width` falls outside the `width*height` data array — so `j ≥ height`
always yields absent, but `i ≥ width` still yields a (mis-addressed) cell
whenever `i + j*width < width*height`; the automaton's accessors delegate
to the active buffer. -/
theorem claim_C1 (w h : Nat) (d : T) (i j : Nat) :
    ((Grid.new (w, h) d).get (i, j) = none ↔ w * h ≤ i + j * w) ∧
    ((Grid.new (w, h) d).get_mut (i, j) = none ↔ w * h ≤ i + j * w) ∧
    (h ≤ j → (Grid.new (w, h) d).get (i, j) = none) ∧
    (∀ g : Grid T, (Automata.new g).get (i, j) = some (g.get (i, j)) ∧
      (Automata.new g).get_mut (i, j) = some (g.get_mut (i, j))) := by
  have hg : (Grid.new (w, h) d).get (i, j)
      = if i + j * w < w * h then some d else none := Grid.get_new w h d i j
  have hm : (Grid.new (w, h) d).get_mut (i, j)
      = if i + j * w < w * h then some d else none := Grid.get_new w h d i j
  have hcase : ∀ o : Option T, o = (if i + j * w < w * h then some d else none) →
      (o = none ↔ w * h ≤ i + j * w) := by
    intro o ho
    subst ho
    by_cases hlt : i + j * w < w * h
    · rw [if_pos hlt]
      constructor
      · intro hc; exact Option.noConfusion hc
      · intro hc; exact absurd hc (by omega)
    · rw [if_neg hlt]
      constructor
      · intro _; omega
      · intro _; rfl
  refine ⟨hcase _ hg, hcase _ hm, ?_, ?_⟩
  · intro hj
    have hle : w * h ≤ i + j * w :=
      le_trans (le_trans (Nat.le_of_eq (Nat.mul_comm w h)) (Nat.mul_le_mul_right w hj))
        (Nat.le_add_left _ _)
    rw [hg, if_neg (by omega)]
  · intro g
    exact ⟨rfl, rfl⟩

theorem claim_C1_w :
    2 ≤ 5 ∧ (Grid.new (3, 2) (0 : Nat)).get (0, 5) = none :=
  ⟨by decide, (claim_C1 3 2 (0 : Nat) 0 5).2.2.1 (by decide)⟩

/-- C8: every in-bounds read on a freshly constructed grid returns the
default value. -/
theorem claim_C8 (w h : Nat) (d : T) (i j : Nat) (hi : i < w) (hj : j < h) :
    (Grid.new (w, h) d).get (i, j) = some d := by
  rw [Grid.get_new, if_pos (idx_lt_of_lt hi hj)]

theorem claim_C8_w : (Grid.new (30, 20) (7 : Nat)).get (3, 4) = some 7 :=
  claim_C8 30 20 7 3 4 (by decide) (by decide)

/-- C3: for every in-bounds (i,j), the neighborhood is exactly the
`get`-values of the candidate sequence — self first, then left, right, and
below for even parity of i+j or above for odd parity, each silently
omitted when its bounds guard fails — and every kept candidate's `get`
succeeds, so nothing else is dropped. -/
theorem claim_C3 (g : Grid T) (w h : Nat) (hd : g.dims = (w, h))
    (hl : g.data.length = w * h) (i j : Nat) (hi : i < w) (hj : j < h) :
    g.neighborhood (i, j) = (candList w h i j).filterMap (fun c => g.get c) ∧
    ∀ c ∈ candList w h i j, (g.get c).isSome := by
  have hfst : g.dims.fst = w := by rw [hd]
  have hsnd : g.dims.snd = h := by rw [hd]
  constructor
  · rw [neighborhood_eq_candList, hfst, hsnd]
  · rintro ⟨c1, c2⟩ hc
    have hb : c1 < w ∧ c2 < h := by
      rcases mem_candList hc with hcase | ⟨h0, hcase⟩ | ⟨h0, hcase⟩ |
          ⟨hp, h0, hcase⟩ | ⟨hp, h0, hcase⟩ <;>
        obtain ⟨e1, e2⟩ := Prod.mk.inj hcase <;> omega
    show (g.data[c1 + c2 * g.dims.fst]?).isSome
    rw [hfst, List.getElem?_eq_getElem (by rw [hl]; exact idx_lt_of_lt hb.1 hb.2)]
    rfl

theorem claim_C3_w :
    (Grid.new (3, 3) (7 : Nat)).neighborhood (1, 1) =
      (candList 3 3 1 1).filterMap (fun c => (Grid.new (3, 3) (7 : Nat)).get c) ∧
    ∀ c ∈ candList 3 3 1 1, ((Grid.new (3, 3) (7 : Nat)).get c).isSome :=
  claim_C3 (Grid.new (3, 3) (7 : Nat)) 3 3 (by decide) (by decide) 1 1
    (by decide) (by decide)

/-- C4 counterexample: on a 3×2 grid, (1,2) is out of bounds (j = 2 ≥
height 2), yet its neighborhood is not empty — the above-candidate (1,1)
survives because its linear index is still in range. -/
theorem claim_C4_cex :
    ¬ ((1, 2).snd < (Grid.new (3, 2) (0 : Nat)).dims.snd) ∧
    (Grid.new (3, 2) (0 : Nat)).neighborhood (1, 2) = [0] := by
  decide

/-- C4 amended: `neighborhood` never fails (it is total); for in-bounds
(i,j) it returns at least one element, self's value first; but for
out-of-bounds (i,j) it is not always empty — it keeps any candidate whose
raw linear index still falls inside the data array. -/
theorem claim_C4 (g : Grid T) (w h : Nat) (hd : g.dims = (w, h))
    (hl : g.data.length = w * h) (i j : Nat) (hi : i < w) (hj : j < h) :
    ∃ v, g.get (i, j) = some v ∧ (g.neighborhood (i, j)).head? = some v ∧
      g.neighborhood (i, j) ≠ [] := by
  have hfst : g.dims.fst = w := by rw [hd]
  have hlt : i + j * g.dims.fst < g.data.length := by
    rw [hfst, hl]; exact idx_lt_of_lt hi hj
  obtain ⟨v, hv⟩ : ∃ v, g.get (i, j) = some v := by
    rw [show g.get (i, j) = g.data[i + j * g.dims.fst]? from rfl,
      List.getElem?_eq_getElem hlt]
    exact ⟨_, rfl⟩
  have hhead : (g.neighborhood (i, j)).head? = some v := by
    rw [neighborhood_eq_candList]
    show (List.filterMap (fun c => g.get c)
      ((i, j) :: candTail g.dims.fst g.dims.snd i j)).head? = _
    rw [List.filterMap_cons, hv]
    rfl
  refine ⟨v, hv, hhead, ?_⟩
  intro hnil
  rw [hnil] at hhead
  exact Option.noConfusion hhead

theorem claim_C4_w :
    (Grid.new (2, 2) (5 : Nat)).dims = (2, 2) ∧
    ∃ v, (Grid.new (2, 2) (5 : Nat)).get (0, 0) = some v ∧
      ((Grid.new (2, 2) (5 : Nat)).neighborhood (0, 0)).head? = some v ∧
      (Grid.new (2, 2) (5 : Nat)).neighborhood (0, 0) ≠ [] :=
  ⟨by decide, claim_C4 (Grid.new (2, 2) (5 : Nat)) 2 2 (by decide) (by decide) 0 0
    (by decide) (by decide)⟩

/-- C2: one `evolve` succeeds on any invariant-satisfying state, and every
in-bounds cell read afterwards through `get` equals the rule applied to
the pre-call active buffer's neighborhood — rule inputs never contain a
value computed during the same `evolve` call. -/
theorem claim_C2 (a : Automata T) (rule : List T → T) (A : Grid T) (w h : Nat)
    (hinv : a.inv) (hA : a.grids[a.flag]? = some A) (hAd : A.dims = (w, h))
    (i j : Nat) (hi : i < w) (hj : j < h) :
    ∃ a2, a.evolve rule = some a2 ∧
      a2.get (i, j) = some (some (rule (A.neighborhood (i, j)))) := by
  obtain ⟨A2, B, w2, h2, hA2, hB, hAd2, hBd, hAl, hBl⟩ := Automata.inv_elim a hinv
  rw [hA] at hA2
  obtain rfl := Option.some.inj hA2
  rw [hAd] at hAd2
  obtain ⟨rfl, rfl⟩ := Prod.mk.inj hAd2
  obtain ⟨C, hev, hCd, hCl, hget⟩ := Automata.evolve_spec a rule hA hB hAd hBd hBl
  refine ⟨_, hev, ?_⟩
  show ((a.grids.set ((a.flag + 1) % 2) C)[(a.flag + 1) % 2]?).map
    (fun g => g.get (i, j)) = _
  rw [List.getElem?_set_self (by rw [hinv.1]; omega), Option.map_some',
    hget i j hi hj]

theorem claim_C2_w :
    (Automata.new (Grid.new (2, 2) (0 : Nat))).inv ∧
    ∃ a2, (Automata.new (Grid.new (2, 2) (0 : Nat))).evolve (fun l => l.length)
        = some a2 ∧
      a2.get (0, 1) = some (some
        ((Grid.new (2, 2) (0 : Nat)).neighborhood (0, 1)).length) :=
  ⟨by decide, claim_C2 (Automata.new (Grid.new (2, 2) (0 : Nat)))
    (fun l => l.length) (Grid.new (2, 2) (0 : Nat)) 2 2 (by decide) (by decide)
    (by decide) 0 1 (by decide) (by decide)⟩

/-- C5: the `main` scenario — 30×20 all `Space 0`, (10,10) seeded to
`Source 10`, one `evolve` with the decay rule — leaves `Source 10` at
(10,10), turns exactly its three in-bounds topological neighbors (9,10),
(11,10), (10,11) into `Space 9`, and leaves every other cell `Space 0`
(see `expectedCell`); and the rule's `max(level,1)` minuend is always at
least 1, so `max(level,1) - 1` never goes below 0. -/
theorem claim_C5 : ∃ a2, demoA2 = some a2 ∧ a2.flag = 1 ∧
    (∀ i j, i < 30 → j < 20 → a2.get (i, j) = some (some (expectedCell (i, j)))) ∧
    (∀ ngh : List Light, 1 ≤ (maxLevel ngh).max 1) := by
  have hA : demoA1v.grids[demoA1v.flag]? = some demoSeedSrc := rfl
  have hB : demoA1v.grids[(demoA1v.flag + 1) % 2]? = some demoSeed := rfl
  have hBl : demoSeed.data.length = 30 * 20 := by simp [demoSeed, Grid.new]
  obtain ⟨C, hev, hCd, hCl, hget⟩ :=
    Automata.evolve_spec demoA1v decayRule hA hB rfl rfl hBl
  refine ⟨Automata.mk [demoSeedSrc, C] 1, ?_, rfl, ?_,
    fun ngh => Nat.le_max_right _ 1⟩
  · rw [show demoA2 = demoA1.bind (Automata.evolve decayRule) from rfl, demoA1_eq,
      Option.some_bind, hev]
    rfl
  · intro i j hi hj
    show ((([demoSeedSrc, C] : List (Grid Light))[1]?).map
      (fun g => g.get (i, j))) = some (some (expectedCell (i, j)))
    rw [show (([demoSeedSrc, C] : List (Grid Light))[1]?) = some C from rfl,
      Option.map_some', hget i j hi hj, demo_step i j hi hj]

theorem claim_C5_w :
    ∃ a2, demoA2 = some a2 ∧ a2.get (9, 10) = some (some (Light.Space 9)) := by
  obtain ⟨a2, h1, h2, h3, h4⟩ := claim_C5
  exact ⟨a2, h1, h3 9 10 (by decide) (by decide)⟩

/-- C6: `Grid::new` establishes `data.length = width*height`, and the full
automaton invariant (two well-formed, equal-dimension buffers, binary flag)
is preserved by any number of `evolve` generations, which leave every
buffer's dims unchanged and their data lengths equal. -/
theorem claim_C6 :
    (∀ (w h : Nat) (d : T), (Grid.new (w, h) d).data.length = w * h) ∧
    (∀ (rule : List T → T) (n : Nat) (a a2 : Automata T), a.inv →
      Automata.evolveN rule n a = some a2 →
      a2.inv ∧ a2.grids.map Grid.dims = a.grids.map Grid.dims ∧
        a2.grids.map (fun g => g.data.length)
          = a.grids.map (fun g => g.data.length)) := by
  constructor
  · intro w h d
    simp [Grid.new]
  · intro rule n a a2 hinv h
    exact Automata.inv_evolveN n a a2 hinv h

theorem claim_C6_w :
    smallA.inv ∧ Automata.evolveN smallRule 2 smallA = some smallA2 ∧
    (smallA2.inv ∧ smallA2.grids.map Grid.dims = smallA.grids.map Grid.dims ∧
      smallA2.grids.map (fun g => g.data.length)
        = smallA.grids.map (fun g => g.data.length)) :=
  ⟨by decide, by decide, claim_C6.2 smallRule 2 smallA smallA2 (by decide) (by decide)⟩

/-- C7: `new` makes both buffers copies of the seed with flag 0; whenever
`evolve` returns, the flag has flipped modulo 2 (so it stays in {0,1}); and
after n generations from `new` the flag is n % 2. -/
theorem claim_C7 (g : Grid T) (rule : List T → T) :
    ((Automata.new g).grids = [g, g] ∧ (Automata.new g).flag = 0) ∧
    (∀ a a2 : Automata T, a.evolve rule = some a2 →
      a2.flag = (a.flag + 1) % 2 ∧ a2.flag < 2) ∧
    (∀ (n : Nat) (a2 : Automata T),
      Automata.evolveN rule n (Automata.new g) = some a2 → a2.flag = n % 2) := by
  refine ⟨⟨rfl, rfl⟩, ?_, ?_⟩
  · intro a a2 hev
    have hf := Automata.evolve_flag hev
    exact ⟨hf, by omega⟩
  · intro n a2 hev
    have hf := Automata.evolveN_flag n (Automata.new g) a2 Nat.zero_lt_two hev
    exact hf.trans (by show (0 + n) % 2 = n % 2; omega)

theorem claim_C7_w :
    Automata.evolveN smallRule 3 smallA = some smallA3 ∧ smallA3.flag = 3 % 2 :=
  ⟨by decide, (claim_C7 (Grid.new (2, 2) (0 : Nat)) smallRule).2.2 3 smallA3
    (by decide)⟩

/-- C9: for an automaton built by `new` on a well-formed seed, `get_mut`
on the inactive buffer returns `Some` at every cell the `evolve` loops
visit, and `evolve` itself returns (the loop's `unwrap` cannot panic). -/
theorem claim_C9 (seed : Grid T) (w h : Nat) (hd : seed.dims = (w, h))
    (hl : seed.data.length = w * h) (rule : List T → T) :
    (∀ i j, i < w → j < h →
      (((Automata.new seed).grids[((Automata.new seed).flag + 1) % 2]?).map
        (fun g => (g.get_mut (i, j)).isSome)) = some true) ∧
    ∃ a2, (Automata.new seed).evolve rule = some a2 := by
  have hfst : seed.dims.fst = w := by rw [hd]
  constructor
  · intro i j hi hj
    show some ((seed.data[i + j * seed.dims.fst]?).isSome) = some true
    rw [hfst, List.getElem?_eq_getElem (by rw [hl]; exact idx_lt_of_lt hi hj)]
    rfl
  · obtain ⟨C, hev, _, _, _⟩ :=
      Automata.evolve_spec (Automata.new seed) rule rfl rfl hd hd hl
    exact ⟨_, hev⟩

theorem claim_C9_w :
    (∀ i j, i < 2 → j < 2 →
      (((Automata.new (Grid.new (2, 2) (3 : Nat))).grids[((Automata.new
          (Grid.new (2, 2) (3 : Nat))).flag + 1) % 2]?).map
        (fun g => (g.get_mut (i, j)).isSome)) = some true) ∧
    ∃ a2, (Automata.new (Grid.new (2, 2) (3 : Nat))).evolve
      (fun l => l.length) = some a2 :=
  claim_C9 (Grid.new (2, 2) (3 : Nat)) 2 2 (by decide) (by decide)
    (fun l => l.length)

/-- C10: `evolve` writes only the inactive buffer — the buffer that was
active before the call survives unchanged at its old slot, which after the
flag flip is the inactive one. -/
theorem claim_C10 (a : Automata T) (rule : List T → T) (A : Grid T)
    (hinv : a.inv) (hA : a.grids[a.flag]? = some A) :
    ∃ a2, a.evolve rule = some a2 ∧ a2.flag = (a.flag + 1) % 2 ∧
      a2.grids[(a2.flag + 1) % 2]? = some A ∧ a.flag = (a2.flag + 1) % 2 := by
  obtain ⟨A2, B, w, h, hA2, hB, hAd, hBd, hAl, hBl⟩ := Automata.inv_elim a hinv
  rw [hA] at hA2
  obtain rfl := Option.some.inj hA2
  obtain ⟨C, hev, _, _, _⟩ := Automata.evolve_spec a rule hA hB hAd hBd hBl
  have hflag : a.flag < 2 := hinv.2.1
  have hne : (a.flag + 1) % 2 ≠ a.flag := by omega
  have hflip : a.flag = (((a.flag + 1) % 2) + 1) % 2 := by omega
  refine ⟨_, hev, rfl, ?_, hflip⟩
  show (a.grids.set ((a.flag + 1) % 2) C)[(((a.flag + 1) % 2) + 1) % 2]? = some A
  rw [← hflip, List.getElem?_set_ne hne]
  exact hA

theorem claim_C10_w :
    ∃ a2, smallA.evolve smallRule = some a2 ∧ a2.flag = (smallA.flag + 1) % 2 ∧
      a2.grids[(a2.flag + 1) % 2]? = some (Grid.new (2, 2) (0 : Nat)) ∧
      smallA.flag = (a2.flag + 1) % 2 :=
  claim_C10 smallA smallRule (Grid.new (2, 2) (0 : Nat)) (by decide) (by decide)
